import Mathlib

/-!
Verification of the caching + rate-limiting layer of the repository
(`src/rate_limiter.py`, `src/cache_manager.py`, `src/config.py`,
`src/models.py`) against its specification.

The Python code is shallowly embedded: the Redis sorted set backing one
rate-limit key is a `ZSet` (association list of members and scores plus a
TTL), the Redis string keyspace backing the analysis cache is an
association list, and every Redis call site is numbered so that an error
schedule `err : Nat → Bool` can make any individual store call raise; the
`try/except` wrappers of the Python code become explicit branches that
record whether an exception was caught.
-/

namespace Scooby

/-- Model of `src/config.py` (`Settings`): the fields used by the cache
manager and the rate limiter, with the defaults declared in the source. -/
structure Settings where
  CACHE_TTL : Int := 3600
  RATE_LIMIT_REQUESTS : Int := 100
  RATE_LIMIT_WINDOW : Int := 3600

/-- The module-level `settings = Settings()` instance of `src/config.py`. -/
def settings : Settings := {}

/-- Python `x or default` applied to an optional integer argument
(`max_requests = max_requests or settings.RATE_LIMIT_REQUESTS`):
both `None` and `0` are falsy and select the default. -/
def pyOrInt (x : Option Int) (d : Int) : Int :=
  match x with
  | none => d
  | some v => if v = 0 then d else v

/-- One Redis sorted set (the value at a `rate_limit:{identifier}` key):
an association list of (member, score) pairs with pairwise-distinct
members, plus the key's TTL as last set by `EXPIRE`. -/
structure ZSet where
  entries : List (String × Int) := []
  ttl : Option Int := none
  deriving Repr, DecidableEq

/-- Redis `ZREMRANGEBYSCORE key lo hi`: drop every member whose score lies
in the closed interval `[lo, hi]`. -/
def zremrangebyscore (s : ZSet) (lo hi : Int) : ZSet :=
  { s with entries := s.entries.filter (fun e => !(decide (lo ≤ e.2) && decide (e.2 ≤ hi))) }

/-- Redis `ZCARD key`: the number of members of the sorted set. -/
def zcard (s : ZSet) : Nat := s.entries.length

/-- Redis `ZADD` on the underlying association list: if the member is
already present its score is updated in place, otherwise the pair is
appended. -/
def zaddEntries (entries : List (String × Int)) (member : String) (score : Int) :
    List (String × Int) :=
  if entries.any (fun e => e.1 = member) then
    entries.map (fun e => if e.1 = member then (member, score) else e)
  else
    entries ++ [(member, score)]

/-- Redis `ZADD key {member: score}`. -/
def zadd (s : ZSet) (member : String) (score : Int) : ZSet :=
  { s with entries := zaddEntries s.entries member score }

/-- Redis `EXPIRE key seconds`. -/
def expire (s : ZSet) (seconds : Int) : ZSet :=
  { s with ttl := some seconds }

/-- The error-free schedule: no store call raises. -/
def noErr : Nat → Bool := fun _ => false

/-- Model of `RateLimiter.is_allowed(identifier, max_requests, window_seconds)`
from `src/rate_limiter.py`. `s` is the sorted set at the identifier's
`rate_limit:` key and `now` is `int(time.time())`. The four Redis calls of
the `try` block are numbered 0 (`zremrangebyscore`), 1 (`zcard`), 2
(`zadd`), 3 (`expire`); `err n = true` makes call `n` raise, in which case
the `except` branch returns `True` (fail open). The result is
(returned boolean, resulting sorted set, whether an exception was caught);
a raising call leaves the store unchanged. -/
def is_allowed (err : Nat → Bool) (s : ZSet) (now : Int)
    (max_requests window_seconds : Option Int) : Bool × ZSet × Bool :=
  let maxr := pyOrInt max_requests settings.RATE_LIMIT_REQUESTS
  let wins := pyOrInt window_seconds settings.RATE_LIMIT_WINDOW
  let window_start := now - wins
  if err 0 then (true, s, true) else
  let s1 := zremrangebyscore s 0 window_start
  if err 1 then (true, s1, true) else
  let current_count : Int := zcard s1
  if current_count ≥ maxr then (false, s1, false) else
  if err 2 then (true, s1, true) else
  let s2 := zadd s1 (toString now) now
  if err 3 then (true, s2, true) else
  (true, expire s2 wins, false)

/-- Model of `RateLimiter.get_remaining_requests(identifier)` from
`src/rate_limiter.py`. The two Redis calls of the `try` block are numbered
0 (`zremrangebyscore`) and 1 (`zcard`); on an exception the `except`
branch returns the full `settings.RATE_LIMIT_REQUESTS` quota. -/
def get_remaining_requests (err : Nat → Bool) (s : ZSet) (now : Int) :
    Int × ZSet × Bool :=
  let window_seconds := settings.RATE_LIMIT_WINDOW
  let window_start := now - window_seconds
  if err 0 then (settings.RATE_LIMIT_REQUESTS, s, true) else
  let s1 := zremrangebyscore s 0 window_start
  if err 1 then (settings.RATE_LIMIT_REQUESTS, s1, true) else
  let current_count : Int := zcard s1
  (max 0 (settings.RATE_LIMIT_REQUESTS - current_count), s1, false)

/-- A sequence of error-free `is_allowed` calls for one identifier at the
given timestamps, threading the sorted-set state; returns the list of
returned booleans and the final state. -/
def runCalls (ts : List Int) (s : ZSet) (max_requests window_seconds : Option Int) :
    List Bool × ZSet :=
  match ts with
  | [] => ([], s)
  | t :: rest =>
    let r := is_allowed noErr s t max_requests window_seconds
    let tail := runCalls rest r.2.1 max_requests window_seconds
    (r.1 :: tail.1, tail.2)

/-- Well-formedness of a rate-limit sorted set as produced by this code:
members are pairwise distinct, and every member is the decimal string of
its own score (the code only ever adds `{str(current_time): current_time}`). -/
def WF (s : ZSet) : Prop :=
  (s.entries.map Prod.fst).Nodup ∧ ∀ e ∈ s.entries, e.1 = toString e.2

/-- UTF-8 encoding of one character (the bytes Python's `str.encode()`
produces for it), as natural numbers below 256. -/
def utf8Char (c : Char) : List Nat :=
  let n := c.toNat
  if n < 0x80 then [n]
  else if n < 0x800 then
    [0xC0 ||| (n >>> 6), 0x80 ||| (n &&& 0x3F)]
  else if n < 0x10000 then
    [0xE0 ||| (n >>> 12), 0x80 ||| ((n >>> 6) &&& 0x3F), 0x80 ||| (n &&& 0x3F)]
  else
    [0xF0 ||| (n >>> 18), 0x80 ||| ((n >>> 12) &&& 0x3F),
     0x80 ||| ((n >>> 6) &&& 0x3F), 0x80 ||| (n &&& 0x3F)]

/-- UTF-8 encoding of a string (Python `s.encode()`). -/
def utf8Bytes (s : String) : List Nat :=
  (s.data.map utf8Char).flatten

/-- The per-round additive constants of MD5 (`floor(abs(sin(i+1)) * 2^32)`). -/
def md5K : List Nat := [
  0xd76aa478, 0xe8c7b756, 0x242070db, 0xc1bdceee,
  0xf57c0faf, 0x4787c62a, 0xa8304613, 0xfd469501,
  0x698098d8, 0x8b44f7af, 0xffff5bb1, 0x895cd7be,
  0x6b901122, 0xfd987193, 0xa679438e, 0x49b40821,
  0xf61e2562, 0xc040b340, 0x265e5a51, 0xe9b6c7aa,
  0xd62f105d, 0x02441453, 0xd8a1e681, 0xe7d3fbc8,
  0x21e1cde6, 0xc33707d6, 0xf4d50d87, 0x455a14ed,
  0xa9e3e905, 0xfcefa3f8, 0x676f02d9, 0x8d2a4c8a,
  0xfffa3942, 0x8771f681, 0x6d9d6122, 0xfde5380c,
  0xa4beea44, 0x4bdecfa9, 0xf6bb4b60, 0xbebfbc70,
  0x289b7ec6, 0xeaa127fa, 0xd4ef3085, 0x04881d05,
  0xd9d4d039, 0xe6db99e5, 0x1fa27cf8, 0xc4ac5665,
  0xf4292244, 0x432aff97, 0xab9423a7, 0xfc93a039,
  0x655b59c3, 0x8f0ccc92, 0xffeff47d, 0x85845dd1,
  0x6fa87e4f, 0xfe2ce6e0, 0xa3014314, 0x4e0811a1,
  0xf7537e82, 0xbd3af235, 0x2ad7d2bb, 0xeb86d391]

/-- The per-round left-rotation amounts of MD5. -/
def md5S : List Nat := [
  7, 12, 17, 22, 7, 12, 17, 22, 7, 12, 17, 22, 7, 12, 17, 22,
  5, 9, 14, 20, 5, 9, 14, 20, 5, 9, 14, 20, 5, 9, 14, 20,
  4, 11, 16, 23, 4, 11, 16, 23, 4, 11, 16, 23, 4, 11, 16, 23,
  6, 10, 15, 21, 6, 10, 15, 21, 6, 10, 15, 21, 6, 10, 15, 21]

/-- Rotate a 32-bit word (a natural number below `2^32`) left by `n` bits. -/
def rotl32 (x n : Nat) : Nat :=
  ((x <<< n) ||| (x >>> (32 - n))) % 4294967296

/-- `k` bytes of `n` in little-endian order. -/
def toLEBytes (k n : Nat) : List Nat :=
  (List.range k).map (fun i => (n >>> (8 * i)) &&& 0xFF)

/-- MD5 padding: append `0x80`, zero bytes up to 56 mod 64, then the
original length in bits as a 64-bit little-endian quantity. -/
def md5Pad (msg : List Nat) : List Nat :=
  msg ++ [0x80] ++ List.replicate ((119 - msg.length % 64) % 64) 0
      ++ toLEBytes 8 ((8 * msg.length) % 18446744073709551616)

/-- Split a byte list into 64-byte blocks. -/
def md5Blocks (l : List Nat) : List (List Nat) :=
  if l = [] then []
  else l.take 64 :: md5Blocks (l.drop 64)
  termination_by l.length
  decreasing_by
    rename_i h
    have : l.length ≠ 0 := fun hlen => h (List.eq_nil_of_length_eq_zero hlen)
    simp [List.length_drop]
    omega

/-- The `i`-th little-endian 32-bit word of a 64-byte block. -/
def md5Word (block : List Nat) (i : Nat) : Nat :=
  block.getD (4 * i) 0 + 256 * block.getD (4 * i + 1) 0
    + 65536 * block.getD (4 * i + 2) 0 + 16777216 * block.getD (4 * i + 3) 0

/-- One of the 64 MD5 rounds applied to the running state `(a, b, c, d)`. -/
def md5Round (block : List Nat) (st : Nat × Nat × Nat × Nat) (i : Nat) :
    Nat × Nat × Nat × Nat :=
  let (a, b, c, d) := st
  let fg : Nat × Nat :=
    if i < 16 then ((b &&& c) ||| ((b ^^^ 0xFFFFFFFF) &&& d), i)
    else if i < 32 then ((d &&& b) ||| ((d ^^^ 0xFFFFFFFF) &&& c), (5 * i + 1) % 16)
    else if i < 48 then (b ^^^ c ^^^ d, (3 * i + 5) % 16)
    else (c ^^^ (b ||| (d ^^^ 0xFFFFFFFF)), (7 * i) % 16)
  let t := (fg.1 + a + md5K.getD i 0 + md5Word block fg.2) % 4294967296
  (d, (b + rotl32 t (md5S.getD i 0)) % 4294967296, b, c)

/-- Process one 64-byte block: run the 64 rounds and add the result to the
incoming state modulo `2^32`. -/
def md5Block (st : Nat × Nat × Nat × Nat) (block : List Nat) :
    Nat × Nat × Nat × Nat :=
  let r := (List.range 64).foldl (md5Round block) st
  ((st.1 + r.1) % 4294967296, (st.2.1 + r.2.1) % 4294967296,
   (st.2.2.1 + r.2.2.1) % 4294967296, (st.2.2.2 + r.2.2.2) % 4294967296)

/-- The 16 digest bytes of MD5 over a byte message. -/
def md5Bytes (msg : List Nat) : List Nat :=
  let st := (md5Blocks (md5Pad msg)).foldl md5Block
    (0x67452301, 0xefcdab89, 0x98badcfe, 0x10325476)
  toLEBytes 4 st.1 ++ toLEBytes 4 st.2.1 ++ toLEBytes 4 st.2.2.1 ++ toLEBytes 4 st.2.2.2

/-- One lowercase hexadecimal digit. -/
def hexDigit (n : Nat) : Char :=
  if n < 10 then Char.ofNat (48 + n) else Char.ofNat (87 + n)

/-- Model of Python `hashlib.md5(s.encode()).hexdigest()`: the MD5 digest
of the UTF-8 encoding of `s`, written as 32 lowercase hex characters. -/
def md5_hex (s : String) : String :=
  String.mk (((md5Bytes (utf8Bytes s)).map
    (fun b => [hexDigit (b / 16), hexDigit (b % 16)])).flatten)

/-- The colon-joined digest input `f"{app_id}:{log_hash}:{doc_hash}"` of
`CacheManager._generate_cache_key` in `src/cache_manager.py`. -/
def combinedKeyInput (app_id log_hash doc_hash : String) : String :=
  app_id ++ ":" ++ log_hash ++ ":" ++ doc_hash

/-- Model of `CacheManager._generate_cache_key(app_id, log_hash, doc_hash)`:
the MD5 hexdigest of the colon-joined inputs under a fixed prefix. -/
def generate_cache_key (app_id log_hash doc_hash : String) : String :=
  "scooby:analysis:" ++ md5_hex (combinedKeyInput app_id log_hash doc_hash)

/-- Structured content as fed to `json.dumps` in
`CacheManager.generate_content_hash`: JSON scalars, arrays, and Python
dicts modelled as string-keyed association lists. -/
inductive Content where
  | null : Content
  | bool : Bool → Content
  | num : Int → Content
  | str : String → Content
  | arr : List Content → Content
  | obj : List (String × Content) → Content

/-- Four lowercase hexadecimal digits of a number below `2^16`. -/
def hex4 (n : Nat) : List Char :=
  [hexDigit (n / 4096 % 16), hexDigit (n / 256 % 16), hexDigit (n / 16 % 16),
   hexDigit (n % 16)]

/-- JSON escaping of one character the way `json.dumps` (with its default
`ensure_ascii=True`) writes it inside a string literal: printable ASCII is
kept, the common control characters use two-character escapes, everything
else becomes `\uXXXX` (a surrogate pair beyond the BMP). -/
def jsonEscapeChar (c : Char) : List Char :=
  if c = '"' then ['\\', '"']
  else if c = '\\' then ['\\', '\\']
  else if c = '\n' then ['\\', 'n']
  else if c = '\t' then ['\\', 't']
  else if c = '\r' then ['\\', 'r']
  else if c.toNat = 8 then ['\\', 'b']
  else if c.toNat = 12 then ['\\', 'f']
  else if c.toNat < 32 ∨ c.toNat > 126 then
    if c.toNat < 65536 then '\\' :: 'u' :: hex4 c.toNat
    else ('\\' :: 'u' :: hex4 (55296 + (c.toNat - 65536) / 1024))
      ++ ('\\' :: 'u' :: hex4 (56320 + (c.toNat - 65536) % 1024))
  else [c]

/-- A JSON string literal for `s`. -/
def jsonQuote (s : String) : String :=
  String.mk ('"' :: (s.data.map jsonEscapeChar).flatten ++ ['"'])

/-- `sort_keys=True`: the items of a dict, sorted by key in code-point
order. -/
def sortByKey (l : List (String × Content)) : List (String × Content) :=
  List.insertionSort (fun p q => p.1 ≤ q.1) l

instance : IsTotal (String × Content) (fun p q => p.1 ≤ q.1) :=
  ⟨fun a b => le_total a.1 b.1⟩

instance : IsTrans (String × Content) (fun p q => p.1 ≤ q.1) :=
  ⟨fun _ _ _ h1 h2 => le_trans h1 h2⟩

mutual

/-- Model of `json.dumps(content, sort_keys=True, default=str)` with the
default separators `(', ', ': ')`, as called by
`CacheManager.generate_content_hash`. -/
def dumps : Content → String
  | .null => "null"
  | .bool b => if b then "true" else "false"
  | .num n => toString n
  | .str s => jsonQuote s
  | .arr xs => "[" ++ dumpsList xs ++ "]"
  | .obj l => "\x7b" ++ dumpsObj (sortByKey l) ++ "\x7d"
termination_by c => sizeOf c
decreasing_by
  · simp only [Content.arr.sizeOf_spec]
    omega
  · simp only [Content.obj.sizeOf_spec]
    have key : ∀ (l1 l2 : List (String × Content)), l1.Perm l2 →
        sizeOf l1 = sizeOf l2 := by
      intro l1 l2 hp
      induction hp with
      | nil => rfl
      | cons x _ ih => simp only [List.cons.sizeOf_spec]; omega
      | swap x y l => simp only [List.cons.sizeOf_spec]; omega
      | trans _ _ ih1 ih2 => omega
    have hs := key _ _ (List.perm_insertionSort (fun p q => p.1 ≤ q.1) l)
    rw [show sortByKey l = List.insertionSort (fun p q => p.1 ≤ q.1) l from rfl]
    omega

/-- The comma-joined serializations of an array's elements. -/
def dumpsList : List Content → String
  | [] => ""
  | [x] => dumps x
  | x :: y :: rest => dumps x ++ ", " ++ dumpsList (y :: rest)
termination_by l => sizeOf l
decreasing_by
  all_goals simp only [List.cons.sizeOf_spec]
  all_goals omega

/-- The comma-joined `"key": value` serializations of a dict's items
(already sorted by `sortByKey`). -/
def dumpsObj : List (String × Content) → String
  | [] => ""
  | [(k, v)] => jsonQuote k ++ ": " ++ dumps v
  | (k, v) :: q :: rest =>
      jsonQuote k ++ ": " ++ dumps v ++ ", " ++ dumpsObj (q :: rest)
termination_by l => sizeOf l
decreasing_by
  all_goals simp only [List.cons.sizeOf_spec, Prod.mk.sizeOf_spec]
  all_goals omega

end

/-- Semantic equality of structured content "up to reordering of
dictionary keys": scalars are equal, arrays are pointwise equivalent, and
dicts (whose keys are unique, as in any Python dict) hold the same keys in
any insertion order with equivalent values at corresponding keys, at every
nesting level. -/
def equivContent : Content → Content → Prop
  | .null, .null => True
  | .bool a, .bool b => a = b
  | .num a, .num b => a = b
  | .str a, .str b => a = b
  | .arr xs, .arr ys =>
      xs.length = ys.length ∧ ∀ p ∈ xs.zip ys, equivContent p.1 p.2
  | .obj l1, .obj l2 =>
      (l1.map Prod.fst).Nodup ∧ (l2.map Prod.fst).Nodup ∧
      l1.length = l2.length ∧
      ∀ p ∈ l1, ∃ q ∈ l2.attach, q.1.1 = p.1 ∧ equivContent p.2 q.1.2
  | _, _ => False
termination_by c1 c2 => sizeOf c1 + sizeOf c2
decreasing_by
  · obtain ⟨a, b⟩ := p
    have hab := List.of_mem_zip (by assumption)
    have h1 := List.sizeOf_lt_of_mem hab.1
    have h2 := List.sizeOf_lt_of_mem hab.2
    simp only [Content.arr.sizeOf_spec]
    omega
  · have h1 := List.sizeOf_lt_of_mem (by assumption : p ∈ l1)
    have h2 := List.sizeOf_lt_of_mem q.2
    obtain ⟨pk, pv⟩ := p
    obtain ⟨⟨qk, qv⟩, hq⟩ := q
    simp only [Content.obj.sizeOf_spec, Prod.mk.sizeOf_spec] at h1 h2 ⊢
    omega

/-- The data `dumpsObj` reads from one dict item: its raw key and the
serialization of its value. -/
def kvRender (p : String × Content) : String × String := (p.1, dumps p.2)

/-- Model of `CacheManager.generate_content_hash(content)`: the MD5
hexdigest of the canonical (key-sorted) JSON serialization. -/
def generate_content_hash (content : Content) : String :=
  md5_hex (dumps content)

/-- A naive `datetime.datetime` value as produced by `datetime.utcnow()`
(the `created_at` default of `AIAnalysis` in `src/models.py`). -/
structure Datetime where
  year : Nat
  month : Nat
  day : Nat
  hour : Nat
  minute : Nat
  second : Nat
  microsecond : Nat
  deriving Repr, DecidableEq

/-- Two decimal digits, zero-padded. -/
def pad2 (n : Nat) : List Char := [Nat.digitChar (n / 10), Nat.digitChar (n % 10)]

/-- Four decimal digits, zero-padded. -/
def pad4 (n : Nat) : List Char :=
  [Nat.digitChar (n / 1000), Nat.digitChar (n / 100 % 10),
   Nat.digitChar (n / 10 % 10), Nat.digitChar (n % 10)]

/-- Six decimal digits, zero-padded. -/
def pad6 (n : Nat) : List Char :=
  [Nat.digitChar (n / 100000), Nat.digitChar (n / 10000 % 10),
   Nat.digitChar (n / 1000 % 10), Nat.digitChar (n / 100 % 10),
   Nat.digitChar (n / 10 % 10), Nat.digitChar (n % 10)]

/-- CPython `datetime.isoformat(sep)`: `YYYY-MM-DD{sep}HH:MM:SS[.ffffff]`
with the microsecond part omitted when it is zero. -/
def Datetime.format (sep : Char) (d : Datetime) : String :=
  String.mk (pad4 d.year ++ '-' :: pad2 d.month ++ '-' :: pad2 d.day
    ++ sep :: pad2 d.hour ++ ':' :: pad2 d.minute ++ ':' :: pad2 d.second
    ++ (if d.microsecond = 0 then [] else '.' :: pad6 d.microsecond))

/-- `datetime.isoformat()` (separator `'T'`), applied by
`set_analysis_cache` to the `created_at` field. -/
def Datetime.isoformat (d : Datetime) : String := Datetime.format 'T' d

/-- `str(datetime)` = `isoformat(sep=' ')`: what `json.dumps(..., default=str)`
applies to the nested `resolution_date` datetimes. -/
def Datetime.pyStr (d : Datetime) : String := Datetime.format ' ' d

/-- Decimal value of a digit character. -/
def digitVal (c : Char) : Nat := c.toNat - 48

/-- Model of pydantic's datetime validation for the textual formats this
code stores: `YYYY-MM-DD{T| }HH:MM:SS` with an optional six-digit
`.ffffff` fraction; anything else fails validation. -/
def parseDatetime (s : String) : Option Datetime :=
  match s.data with
  | y1 :: y2 :: y3 :: y4 :: '-' :: m1 :: m2 :: '-' :: d1 :: d2 :: sep
      :: h1 :: h2 :: ':' :: n1 :: n2 :: ':' :: s1 :: s2 :: rest =>
    if (sep = 'T' ∨ sep = ' ') ∧ (y1.isDigit ∧ y2.isDigit ∧ y3.isDigit ∧ y4.isDigit)
        ∧ (m1.isDigit ∧ m2.isDigit) ∧ (d1.isDigit ∧ d2.isDigit)
        ∧ (h1.isDigit ∧ h2.isDigit) ∧ (n1.isDigit ∧ n2.isDigit)
        ∧ (s1.isDigit ∧ s2.isDigit) then
      let base : Datetime :=
        { year := digitVal y1 * 1000 + digitVal y2 * 100 + digitVal y3 * 10 + digitVal y4,
          month := digitVal m1 * 10 + digitVal m2,
          day := digitVal d1 * 10 + digitVal d2,
          hour := digitVal h1 * 10 + digitVal h2,
          minute := digitVal n1 * 10 + digitVal n2,
          second := digitVal s1 * 10 + digitVal s2,
          microsecond := 0 }
      match rest with
      | [] => some base
      | '.' :: u1 :: u2 :: u3 :: u4 :: u5 :: u6 :: [] =>
        if u1.isDigit ∧ u2.isDigit ∧ u3.isDigit ∧ u4.isDigit ∧ u5.isDigit ∧ u6.isDigit then
          some { base with
            microsecond := digitVal u1 * 100000 + digitVal u2 * 10000
              + digitVal u3 * 1000 + digitVal u4 * 100 + digitVal u5 * 10 + digitVal u6 }
        else none
      | _ => none
    else none
  | _ => none

/-- Field ranges under which the textual formats round-trip; every value
`datetime.utcnow()` can produce satisfies them. -/
def Datetime.Valid (d : Datetime) : Prop :=
  d.year < 10000 ∧ d.month < 100 ∧ d.day < 100 ∧ d.hour < 100 ∧
    d.minute < 100 ∧ d.second < 100 ∧ d.microsecond < 1000000

/-- `SimilarIncident` of `src/models.py`. The `similarity_score: float`
field is modelled as an integer: no claim depends on float arithmetic,
only on the field being carried through serialization unchanged, and JSON
round-trips CPython floats exactly. -/
structure SimilarIncident where
  id : String
  similarity_score : Int
  resolution : String
  mttr : String
  resolution_date : Datetime
  deriving Repr, DecidableEq

/-- `AIAnalysis` of `src/models.py` (`confidence: float` modelled as an
integer, see `SimilarIncident`). -/
structure AIAnalysis where
  incident_id : String
  confidence : Int
  severity_assessment : String
  root_cause : String
  recommendations : List String
  business_impact : String
  escalation_path : String
  similar_incidents : List SimilarIncident
  reasoning_chain : List String
  created_at : Datetime
  deriving Repr, DecidableEq

/-- The nested dict stored for a `SimilarIncident`: `resolution_date` has
been turned into text by `json.dumps(..., default=str)`. -/
structure SimilarIncidentJson where
  id : String
  similarity_score : Int
  resolution : String
  mttr : String
  resolution_date : String
  deriving Repr, DecidableEq

/-- The JSON document `set_analysis_cache` writes to Redis:
`model_dump()` output with `created_at` replaced by its `isoformat()`
text. The `json.dumps`/`json.loads` pair round-trips JSON documents
exactly, so the Redis value is modelled at this tree level rather than as
the serialized byte string. -/
structure AIAnalysisJson where
  incident_id : String
  confidence : Int
  severity_assessment : String
  root_cause : String
  recommendations : List String
  business_impact : String
  escalation_path : String
  similar_incidents : List SimilarIncidentJson
  reasoning_chain : List String
  created_at : String
  deriving Repr, DecidableEq

/-- `model_dump()` of one nested incident plus the `default=str`
rendering of its datetime during `json.dumps`. -/
def dumpSimilarIncident (si : SimilarIncident) : SimilarIncidentJson :=
  { id := si.id, similarity_score := si.similarity_score,
    resolution := si.resolution, mttr := si.mttr,
    resolution_date := si.resolution_date.pyStr }

/-- The serialization performed inside `set_analysis_cache`:
`analysis.model_dump()`, then
`analysis_dict['created_at'] = analysis_dict['created_at'].isoformat()`,
then `json.dumps(analysis_dict, default=str)`. -/
def dumpAnalysis (a : AIAnalysis) : AIAnalysisJson :=
  { incident_id := a.incident_id, confidence := a.confidence,
    severity_assessment := a.severity_assessment, root_cause := a.root_cause,
    recommendations := a.recommendations, business_impact := a.business_impact,
    escalation_path := a.escalation_path,
    similar_incidents := a.similar_incidents.map dumpSimilarIncident,
    reasoning_chain := a.reasoning_chain,
    created_at := a.created_at.isoformat }

/-- pydantic validation `SimilarIncident(**d)`: parse the datetime text. -/
def parseSimilarIncident (d : SimilarIncidentJson) : Option SimilarIncident :=
  match parseDatetime d.resolution_date with
  | none => none
  | some rd =>
    some { id := d.id, similarity_score := d.similarity_score,
           resolution := d.resolution, mttr := d.mttr, resolution_date := rd }

/-- pydantic validation of the `similar_incidents` list. -/
def parseSimilarIncidents : List SimilarIncidentJson → Option (List SimilarIncident)
  | [] => some []
  | d :: rest =>
    match parseSimilarIncident d, parseSimilarIncidents rest with
    | some si, some sis => some (si :: sis)
    | _, _ => none

/-- pydantic validation `AIAnalysis(**analysis_dict)` as performed inside
`get_analysis_cache`: the `Field(ge=0, le=100)` bound on `confidence` and
datetime parsing for `created_at` and each nested `resolution_date`. A
failure raises a `ValidationError` inside the `try`, which the `except`
turns into a miss. -/
def parseAnalysis (d : AIAnalysisJson) : Option AIAnalysis :=
  if 0 ≤ d.confidence ∧ d.confidence ≤ 100 then
    match parseDatetime d.created_at, parseSimilarIncidents d.similar_incidents with
    | some ca, some sis =>
      some { incident_id := d.incident_id, confidence := d.confidence,
             severity_assessment := d.severity_assessment, root_cause := d.root_cause,
             recommendations := d.recommendations, business_impact := d.business_impact,
             escalation_path := d.escalation_path, similar_incidents := sis,
             reasoning_chain := d.reasoning_chain, created_at := ca }
    | _, _ => none
  else none

/-- The Redis string keyspace used by the cache manager: each key holds a
stored JSON document (see `AIAnalysisJson`) together with its `SETEX`
TTL. -/
structure KV where
  pairs : List (String × AIAnalysisJson × Int) := []
  deriving Repr, DecidableEq

/-- Redis `GET key`. -/
def kvGet (kv : KV) (key : String) : Option AIAnalysisJson :=
  match kv.pairs.find? (fun p => p.1 = key) with
  | some p => some p.2.1
  | none => none

/-- Redis `SETEX key ttl value`: overwrite the existing entry or append a
new one. -/
def kvSetex (kv : KV) (key : String) (v : AIAnalysisJson) (ttl : Int) : KV :=
  if kv.pairs.any (fun p => p.1 = key) then
    { pairs := kv.pairs.map (fun p => if p.1 = key then (key, v, ttl) else p) }
  else { pairs := kv.pairs ++ [(key, v, ttl)] }

/-- Model of `CacheManager.get_analysis_cache(app_id, log_hash, doc_hash)`
from `src/cache_manager.py`. The single Redis call (`GET`, numbered 0)
raises when `err 0 = true`, and the `except` branch then returns `None`.
The result is (returned analysis, whether a store exception was caught). -/
def get_analysis_cache (err : Nat → Bool) (kv : KV)
    (app_id log_hash doc_hash : String) : Option AIAnalysis × Bool :=
  if err 0 then (none, true) else
  match kvGet kv (generate_cache_key app_id log_hash doc_hash) with
  | some v => (parseAnalysis v, false)
  | none => (none, false)

/-- Model of `CacheManager.set_analysis_cache(app_id, log_hash, doc_hash,
analysis)` from `src/cache_manager.py`: serialize and `SETEX` under
`settings.CACHE_TTL`. The Redis call (numbered 0) raises when
`err 0 = true`; the `except` branch only logs, so the keyspace is
unchanged and the call returns normally. The result is (resulting
keyspace, whether a store exception was caught). -/
def set_analysis_cache (err : Nat → Bool) (kv : KV)
    (app_id log_hash doc_hash : String) (analysis : AIAnalysis) : KV × Bool :=
  if err 0 then (kv, true) else
  (kvSetex kv (generate_cache_key app_id log_hash doc_hash)
    (dumpAnalysis analysis) settings.CACHE_TTL, false)

/-- An `AIAnalysis` value as pydantic admits it: `confidence` within its
declared `Field(ge=0, le=100)` bounds and all datetimes in normal form. -/
def AIAnalysis.Valid (a : AIAnalysis) : Prop :=
  0 ≤ a.confidence ∧ a.confidence ≤ 100 ∧ a.created_at.Valid ∧
    ∀ si ∈ a.similar_incidents, si.resolution_date.Valid

/-- A concrete analysis value used to exercise the cache operations. -/
def sampleAnalysis : AIAnalysis :=
  { incident_id := "INC-1", confidence := 92,
    severity_assessment := "P1", root_cause := "connection pool exhaustion",
    recommendations := ["restart", "scale"], business_impact := "high",
    escalation_path := "oncall",
    similar_incidents := [{ id := "INC-0", similarity_score := 88,
                            resolution := "rollback", mttr := "2h",
                            resolution_date := ⟨2023, 12, 1, 8, 0, 0, 0⟩ }],
    reasoning_chain := ["step1"], created_at := ⟨2024, 1, 15, 12, 30, 45, 123456⟩ }

lemma WF_zremrangebyscore {s : ZSet} (h : WF s) (lo hi : Int) :
    WF (zremrangebyscore s lo hi) := by
  obtain ⟨hnd, hstr⟩ := h
  refine ⟨?_, ?_⟩
  · exact hnd.sublist (List.Sublist.map Prod.fst (List.filter_sublist s.entries))
  · intro e he
    exact hstr e (List.mem_of_mem_filter he)

lemma zaddEntries_WF (l : List (String × Int)) (t : Int)
    (hnd : (l.map Prod.fst).Nodup) (hstr : ∀ e ∈ l, e.1 = toString e.2) :
    ((zaddEntries l (toString t) t).map Prod.fst).Nodup ∧
      ∀ e ∈ zaddEntries l (toString t) t, e.1 = toString e.2 := by
  unfold zaddEntries
  by_cases hmem : l.any (fun e => decide (e.1 = toString t)) = true
  · rw [if_pos hmem]
    refine ⟨?_, ?_⟩
    · have hmap : (l.map
          (fun e => if e.1 = toString t then (toString t, t) else e)).map Prod.fst
          = l.map Prod.fst := by
        rw [List.map_map]
        apply List.map_congr_left
        intro e _
        by_cases he : e.1 = toString t
        · simp [Function.comp, he]
        · simp [Function.comp, he]
      rw [hmap]
      exact hnd
    · intro e he
      rw [List.mem_map] at he
      obtain ⟨a, ha, rfl⟩ := he
      by_cases hae : a.1 = toString t
      · simp [hae]
      · simpa [hae] using hstr a ha
  · rw [if_neg hmem]
    refine ⟨?_, ?_⟩
    · rw [List.map_append, List.nodup_append]
      refine ⟨hnd, by simp, ?_⟩
      intro x hx
      simp only [List.map_cons, List.map_nil, List.mem_singleton]
      intro hx1
      rw [List.mem_map] at hx
      obtain ⟨a, ha, rfl⟩ := hx
      apply hmem
      rw [List.any_eq_true]
      exact ⟨a, ha, by simp [hx1]⟩
    · intro e he
      rcases List.mem_append.mp he with h1 | h2
      · exact hstr e h1
      · simp only [List.mem_singleton] at h2
        subst h2
        rfl

lemma WF_zadd_self {s : ZSet} (h : WF s) (t : Int) :
    WF (zadd s (toString t) t) :=
  zaddEntries_WF s.entries t h.1 h.2

lemma WF_expire {s : ZSet} (h : WF s) (n : Int) : WF (expire s n) := h

lemma one_per_score (l : List (String × Int)) (hnd : (l.map Prod.fst).Nodup)
    (hstr : ∀ e ∈ l, e.1 = toString e.2) (t : Int) :
    (l.filter (fun e => decide (e.2 = t))).length ≤ 1 := by
  induction l with
  | nil => simp
  | cons a l ih =>
    simp only [List.map_cons, List.nodup_cons] at hnd
    by_cases hat : a.2 = t
    · have hnil : l.filter (fun e => decide (e.2 = t)) = [] := by
        rw [List.filter_eq_nil_iff]
        intro e he
        simp only [decide_eq_true_eq]
        intro het
        apply hnd.1
        rw [List.mem_map]
        refine ⟨e, he, ?_⟩
        rw [hstr e (List.mem_cons_of_mem a he), het, ← hat,
          ← hstr a (List.mem_cons_self a l)]
      simp [List.filter_cons, hat, hnil]
    · have htail := ih hnd.2 (fun e he => hstr e (List.mem_cons_of_mem a he))
      simpa [List.filter_cons, hat] using htail

lemma WF_is_allowed (err : Nat → Bool) (s : ZSet) (now : Int)
    (mr ws : Option Int) (h : WF s) : WF (is_allowed err s now mr ws).2.1 := by
  have h1 : WF (zremrangebyscore s 0 (now - pyOrInt ws settings.RATE_LIMIT_WINDOW)) :=
    WF_zremrangebyscore h 0 _
  simp only [is_allowed]
  split_ifs <;>
    first
      | exact h
      | exact h1
      | exact WF_zadd_self h1 now

lemma zaddEntries_length_of_mem (l : List (String × Int)) (m : String) (sc : Int)
    (h : m ∈ l.map Prod.fst) : (zaddEntries l m sc).length = l.length := by
  unfold zaddEntries
  rw [List.mem_map] at h
  obtain ⟨a, ha, hm⟩ := h
  rw [if_pos (List.any_eq_true.mpr ⟨a, ha, by simp [hm]⟩), List.length_map]

lemma dumps_arr (xs : List Content) :
    dumps (.arr xs) = "[" ++ dumpsList xs ++ "]" := by
  rw [dumps.eq_def]

lemma dumps_obj (l : List (String × Content)) :
    dumps (.obj l) = "\x7b" ++ dumpsObj (sortByKey l) ++ "\x7d" := by
  rw [dumps.eq_def]

lemma sizeOf_snd_lt {p : String × Content} {l : List (String × Content)}
    (h : p ∈ l) : sizeOf p.2 < sizeOf l := by
  have h1 := List.sizeOf_lt_of_mem h
  obtain ⟨k, v⟩ := p
  simp only [Prod.mk.sizeOf_spec] at h1 ⊢
  omega

lemma dumpsList_congr : ∀ xs ys : List Content, xs.length = ys.length →
    (∀ p ∈ xs.zip ys, dumps p.1 = dumps p.2) → dumpsList xs = dumpsList ys := by
  intro xs
  induction xs with
  | nil =>
    intro ys h _
    cases ys with
    | nil => rfl
    | cons y ys => simp at h
  | cons x xs ih =>
    intro ys hlen hpt
    cases ys with
    | nil => simp at hlen
    | cons y ys =>
      have hxy : dumps x = dumps y := hpt (x, y) (by simp)
      have hlen2 : xs.length = ys.length := by simpa using hlen
      have htail := ih ys hlen2
        (fun p hp => hpt p (by simp [List.zip_cons_cons]; right; exact hp))
      cases xs with
      | nil =>
        cases ys with
        | nil => simp [dumpsList, hxy]
        | cons y2 ys2 => simp at hlen2
      | cons x2 xs2 =>
        cases ys with
        | nil => simp at hlen2
        | cons y2 ys2 =>
          simp only [dumpsList]
          rw [hxy, htail]

lemma dumpsObj_congr : ∀ L1 L2 : List (String × Content),
    L1.map kvRender = L2.map kvRender → dumpsObj L1 = dumpsObj L2 := by
  intro L1
  induction L1 with
  | nil =>
    intro L2 h
    cases L2 with
    | nil => rfl
    | cons q L2 => simp at h
  | cons p L1 ih =>
    intro L2 h
    cases L2 with
    | nil => simp at h
    | cons q L2 =>
      simp only [List.map_cons, List.cons.injEq] at h
      obtain ⟨hpq, htail⟩ := h
      have hk : p.1 = q.1 := by
        have h1 := congrArg Prod.fst hpq
        simpa [kvRender] using h1
      have hv : dumps p.2 = dumps q.2 := by
        have h1 := congrArg Prod.snd hpq
        simpa [kvRender] using h1
      have ht := ih L2 htail
      obtain ⟨pk, pv⟩ := p
      obtain ⟨qk, qv⟩ := q
      simp only at hk hv
      cases L1 with
      | nil =>
        cases L2 with
        | nil => simp only [dumpsObj]; rw [hk, hv]
        | cons q2 L2 => simp at htail
      | cons p2 L1 =>
        cases L2 with
        | nil => simp at htail
        | cons q2 L2 =>
          simp only [dumpsObj]
          rw [hk, hv, ht]

lemma sorted_kv_eq (m1 m2 : List (String × String))
    (hperm : m1.Perm m2)
    (hs1 : List.Sorted (fun a b : String × String => a.1 ≤ b.1) m1)
    (hs2 : List.Sorted (fun a b : String × String => a.1 ≤ b.1) m2)
    (hnd1 : (m1.map Prod.fst).Nodup) (hnd2 : (m2.map Prod.fst).Nodup) :
    m1 = m2 := by
  have hanti : IsAntisymm (String × String)
      (fun a b => a.1 < b.1 ∨ a = b) := by
    constructor
    rintro a b (h1 | h1) (h2 | h2)
    · exact absurd h2 (lt_asymm h1)
    · exact h2.symm
    · exact h1
    · exact h1
  have hstrict : ∀ m : List (String × String),
      List.Sorted (fun a b : String × String => a.1 ≤ b.1) m →
      (m.map Prod.fst).Nodup →
      List.Sorted (fun a b : String × String => a.1 < b.1 ∨ a = b) m := by
    intro m hs hnd
    have hne : m.Pairwise (fun a b => a.1 ≠ b.1) := List.pairwise_map.mp hnd
    exact (hs.and hne).imp (fun h => Or.inl (lt_of_le_of_ne h.1 h.2))
  exact @List.eq_of_perm_of_sorted _ _ hanti _ _ hperm
    (hstrict m1 hs1 hnd1) (hstrict m2 hs2 hnd2)

theorem dumps_eq_of_equiv_bounded : ∀ n : Nat, ∀ c1 c2 : Content,
    sizeOf c1 + sizeOf c2 ≤ n → equivContent c1 c2 → dumps c1 = dumps c2 := by
  intro n
  induction n with
  | zero =>
    intro c1 c2 hsz _
    exfalso
    cases c1 <;> simp at hsz
  | succ n ih =>
    intro c1 c2 hsz heq
    rw [equivContent.eq_def] at heq
    cases c1 with
    | null =>
      cases c2 <;> try exact heq.elim
      rfl
    | bool a =>
      cases c2 <;> try exact heq.elim
      rename_i b
      have h : a = b := heq
      rw [h]
    | num a =>
      cases c2 <;> try exact heq.elim
      rename_i b
      have h : a = b := heq
      rw [h]
    | str a =>
      cases c2 <;> try exact heq.elim
      rename_i b
      have h : a = b := heq
      rw [h]
    | arr xs =>
      cases c2 <;> try exact heq.elim
      rename_i ys
      have heq2 : xs.length = ys.length ∧ ∀ p ∈ xs.zip ys, equivContent p.1 p.2 := heq
      have hsz2 : sizeOf xs + sizeOf ys ≤ n := by
        simp only [Content.arr.sizeOf_spec] at hsz
        omega
      have hdump : ∀ p ∈ xs.zip ys, dumps p.1 = dumps p.2 := by
        intro p hp
        obtain ⟨a, b⟩ := p
        have hm := List.of_mem_zip hp
        have h1 := List.sizeOf_lt_of_mem hm.1
        have h2 := List.sizeOf_lt_of_mem hm.2
        exact ih a b (by omega) (heq2.2 (a, b) hp)
      rw [dumps_arr, dumps_arr, dumpsList_congr xs ys heq2.1 hdump]
    | obj l1 =>
      cases c2 <;> try exact heq.elim
      rename_i l2
      have heq2 : (l1.map Prod.fst).Nodup ∧ (l2.map Prod.fst).Nodup ∧
          l1.length = l2.length ∧
          ∀ p ∈ l1, ∃ q ∈ l2.attach, q.1.1 = p.1 ∧ equivContent p.2 q.1.2 := heq
      obtain ⟨hnd1, hnd2, hlen, hmatch⟩ := heq2
      have hsz2 : sizeOf l1 + sizeOf l2 ≤ n := by
        simp only [Content.obj.sizeOf_spec] at hsz
        omega
      have hsub : (l1.map kvRender) ⊆ (l2.map kvRender) := by
        intro x hx
        rw [List.mem_map] at hx
        obtain ⟨p, hp, rfl⟩ := hx
        obtain ⟨q, hq, hkey, hequiv⟩ := hmatch p hp
        have hq2 : q.1 ∈ l2 := q.2
        have hdv : dumps p.2 = dumps q.1.2 := by
          have b1 : sizeOf p.2 < sizeOf l1 := sizeOf_snd_lt hp
          have b2 : sizeOf q.1.2 < sizeOf l2 := sizeOf_snd_lt hq2
          exact ih p.2 q.1.2 (by omega) hequiv
        rw [List.mem_map]
        refine ⟨q.1, hq2, ?_⟩
        unfold kvRender
        rw [hkey, hdv]
      have hnd1m : (l1.map kvRender).Nodup := by
        apply List.Nodup.of_map Prod.fst
        rw [List.map_map]
        exact hnd1
      have hperm : (l1.map kvRender).Perm (l2.map kvRender) :=
        (hnd1m.subperm hsub).perm_of_length_le (by simp [hlen])
      have hperm2 : ((sortByKey l1).map kvRender).Perm ((sortByKey l2).map kvRender) :=
        ((List.perm_insertionSort _ l1).map kvRender).trans
          (hperm.trans ((List.perm_insertionSort _ l2).map kvRender).symm)
      have hsorted : ∀ l : List (String × Content),
          List.Sorted (fun a b : String × String => a.1 ≤ b.1)
            ((sortByKey l).map kvRender) := by
        intro l
        have hs : List.Sorted (fun p q : String × Content => p.1 ≤ q.1) (sortByKey l) :=
          List.sorted_insertionSort _ l
        exact List.Pairwise.map kvRender (fun a b h => h) hs
      have hndkeys : ∀ l : List (String × Content), (l.map Prod.fst).Nodup →
          (((sortByKey l).map kvRender).map Prod.fst).Nodup := by
        intro l hnd
        rw [List.map_map]
        have hfst : ((sortByKey l).map Prod.fst).Perm (l.map Prod.fst) :=
          (List.perm_insertionSort _ l).map Prod.fst
        exact (hfst.nodup_iff).mpr hnd
      have hmain : (sortByKey l1).map kvRender = (sortByKey l2).map kvRender :=
        sorted_kv_eq _ _ hperm2 (hsorted l1) (hsorted l2)
          (hndkeys l1 hnd1) (hndkeys l2 hnd2)
      rw [dumps_obj, dumps_obj, dumpsObj_congr (sortByKey l1) (sortByKey l2) hmain]

lemma digitChar_isDigit {n : Nat} (h : n < 10) : (Nat.digitChar n).isDigit = true := by
  interval_cases n <;> decide

lemma digitVal_digitChar {n : Nat} (h : n < 10) : digitVal (Nat.digitChar n) = n := by
  interval_cases n <;> decide

lemma pad2_val {n : Nat} (h : n < 100) :
    digitVal (Nat.digitChar (n / 10)) * 10 + digitVal (Nat.digitChar (n % 10)) = n := by
  rw [digitVal_digitChar (by omega), digitVal_digitChar (by omega)]
  omega

lemma pad4_val {n : Nat} (h : n < 10000) :
    digitVal (Nat.digitChar (n / 1000)) * 1000 + digitVal (Nat.digitChar (n / 100 % 10)) * 100
      + digitVal (Nat.digitChar (n / 10 % 10)) * 10 + digitVal (Nat.digitChar (n % 10)) = n := by
  rw [digitVal_digitChar (by omega), digitVal_digitChar (by omega),
    digitVal_digitChar (by omega), digitVal_digitChar (by omega)]
  omega

lemma pad6_val {n : Nat} (h : n < 1000000) :
    digitVal (Nat.digitChar (n / 100000)) * 100000 + digitVal (Nat.digitChar (n / 10000 % 10)) * 10000
      + digitVal (Nat.digitChar (n / 1000 % 10)) * 1000 + digitVal (Nat.digitChar (n / 100 % 10)) * 100
      + digitVal (Nat.digitChar (n / 10 % 10)) * 10 + digitVal (Nat.digitChar (n % 10)) = n := by
  rw [digitVal_digitChar (by omega), digitVal_digitChar (by omega),
    digitVal_digitChar (by omega), digitVal_digitChar (by omega),
    digitVal_digitChar (by omega), digitVal_digitChar (by omega)]
  omega

lemma parseDatetime_format {d : Datetime} (hv : d.Valid) {sep : Char}
    (hsep : sep = 'T' ∨ sep = ' ') :
    parseDatetime (Datetime.format sep d) = some d := by
  obtain ⟨hy, hmo, hda, hho, hmi, hse, hus⟩ := hv
  obtain ⟨y, mo, da, ho, mi, se, us⟩ := d
  simp only at hy hmo hda hho hmi hse hus
  by_cases h0 : us = 0
  · subst h0
    simp only [parseDatetime, Datetime.format, pad4, pad2, pad6, if_pos, List.append_assoc,
      List.cons_append, List.nil_append]
    rw [if_pos ⟨hsep,
      ⟨digitChar_isDigit (by omega), digitChar_isDigit (by omega),
       digitChar_isDigit (by omega), digitChar_isDigit (by omega)⟩,
      ⟨digitChar_isDigit (by omega), digitChar_isDigit (by omega)⟩,
      ⟨digitChar_isDigit (by omega), digitChar_isDigit (by omega)⟩,
      ⟨digitChar_isDigit (by omega), digitChar_isDigit (by omega)⟩,
      ⟨digitChar_isDigit (by omega), digitChar_isDigit (by omega)⟩,
      ⟨digitChar_isDigit (by omega), digitChar_isDigit (by omega)⟩⟩]
    simp only [Option.some.injEq, Datetime.mk.injEq]
    refine ⟨?_, ?_, ?_, ?_, ?_, ?_, trivial⟩
    · exact pad4_val hy
    · exact pad2_val hmo
    · exact pad2_val hda
    · exact pad2_val hho
    · exact pad2_val hmi
    · exact pad2_val hse
  · simp only [parseDatetime, Datetime.format, pad4, pad2, pad6, if_neg h0, List.append_assoc,
      List.cons_append, List.nil_append]
    rw [if_pos ⟨hsep,
      ⟨digitChar_isDigit (by omega), digitChar_isDigit (by omega),
       digitChar_isDigit (by omega), digitChar_isDigit (by omega)⟩,
      ⟨digitChar_isDigit (by omega), digitChar_isDigit (by omega)⟩,
      ⟨digitChar_isDigit (by omega), digitChar_isDigit (by omega)⟩,
      ⟨digitChar_isDigit (by omega), digitChar_isDigit (by omega)⟩,
      ⟨digitChar_isDigit (by omega), digitChar_isDigit (by omega)⟩,
      ⟨digitChar_isDigit (by omega), digitChar_isDigit (by omega)⟩⟩]
    rw [if_pos ⟨digitChar_isDigit (by omega), digitChar_isDigit (by omega),
      digitChar_isDigit (by omega), digitChar_isDigit (by omega),
      digitChar_isDigit (by omega), digitChar_isDigit (by omega)⟩]
    simp only [Option.some.injEq, Datetime.mk.injEq]
    refine ⟨?_, ?_, ?_, ?_, ?_, ?_, ?_⟩
    · exact pad4_val hy
    · exact pad2_val hmo
    · exact pad2_val hda
    · exact pad2_val hho
    · exact pad2_val hmi
    · exact pad2_val hse
    · exact pad6_val hus

end Scooby

namespace Scooby

lemma parseSimilarIncident_dump {si : SimilarIncident}
    (h : si.resolution_date.Valid) :
    parseSimilarIncident (dumpSimilarIncident si) = some si := by
  unfold parseSimilarIncident dumpSimilarIncident Datetime.pyStr
  rw [parseDatetime_format h (Or.inr rfl)]

lemma parseSimilarIncidents_dump : ∀ sis : List SimilarIncident,
    (∀ si ∈ sis, si.resolution_date.Valid) →
    parseSimilarIncidents (sis.map dumpSimilarIncident) = some sis := by
  intro sis
  induction sis with
  | nil => intro _; rfl
  | cons si rest ih =>
    intro h
    simp only [List.map_cons, parseSimilarIncidents]
    rw [parseSimilarIncident_dump (h si (List.mem_cons_self si rest)),
      ih (fun x hx => h x (List.mem_cons_of_mem si hx))]

lemma parseAnalysis_dump {a : AIAnalysis} (h : a.Valid) :
    parseAnalysis (dumpAnalysis a) = some a := by
  obtain ⟨h1, h2, h3, h4⟩ := h
  unfold parseAnalysis dumpAnalysis Datetime.isoformat
  rw [if_pos ⟨h1, h2⟩, parseDatetime_format h3 (Or.inl rfl), parseSimilarIncidents_dump _ h4]

lemma find_replace (key : String) (v : AIAnalysisJson) (ttl : Int) :
    ∀ l : List (String × AIAnalysisJson × Int),
    l.any (fun p => decide (p.1 = key)) = true →
    (l.map (fun p => if p.1 = key then (key, v, ttl) else p)).find?
      (fun p => decide (p.1 = key)) = some (key, v, ttl) := by
  intro l
  induction l with
  | nil => intro h; simp at h
  | cons p rest ih =>
    intro h
    by_cases hp : p.1 = key
    · simp only [List.map_cons, if_pos hp]
      rw [List.find?_cons_of_pos _ (by simp)]
    · simp only [List.map_cons, if_neg hp]
      rw [List.find?_cons_of_neg _ (by simpa using hp)]
      apply ih
      simpa [hp] using h

lemma find_append (key : String) (v : AIAnalysisJson) (ttl : Int) :
    ∀ l : List (String × AIAnalysisJson × Int),
    l.any (fun p => decide (p.1 = key)) = false →
    (l ++ [(key, v, ttl)]).find? (fun p => decide (p.1 = key)) = some (key, v, ttl) := by
  intro l
  induction l with
  | nil =>
    intro _
    rw [List.nil_append, List.find?_cons_of_pos _ (by simp)]
  | cons p rest ih =>
    intro h
    simp only [List.any_cons, Bool.or_eq_false_iff] at h
    rw [List.cons_append, List.find?_cons_of_neg _ (by simpa using h.1)]
    exact ih h.2

lemma kvGet_kvSetex_same (kv : KV) (key : String) (v : AIAnalysisJson) (ttl : Int) :
    kvGet (kvSetex kv key v ttl) key = some v := by
  obtain ⟨l⟩ := kv
  unfold kvGet kvSetex
  by_cases hmem : l.any (fun p => decide (p.1 = key)) = true
  · rw [if_pos hmem]
    simp only
    rw [find_replace key v ttl l hmem]
  · rw [if_neg hmem]
    simp only
    rw [find_append key v ttl l (by rw [Bool.eq_false_iff]; exact hmem)]

end Scooby

namespace Scooby

/-- Claim C1: the spec's test property says four `isAllowed("x", 3, 10)` calls
within 1 second return `[true, true, true, false]`. The code stores the
marker under the member `str(current_time)` with one-second resolution, so
markers of same-second calls collapse into a single sorted-set member and
the fourth call is still admitted. Evaluating the embedded code on every
shape of four integer-second timestamps spanning at most 1 second (all in
one second, or split across two adjacent seconds), from an empty window:
every schedule yields `[true, true, true, true]`, contradicting the spec's
expected `[true, true, true, false]`. -/
theorem C1_four_calls_within_one_second_all_admitted :
    (runCalls [100, 100, 100, 100] {} (some 3) (some 10)).1 = [true, true, true, true]
    ∧ (runCalls [100, 100, 100, 101] {} (some 3) (some 10)).1 = [true, true, true, true]
    ∧ (runCalls [100, 100, 101, 101] {} (some 3) (some 10)).1 = [true, true, true, true]
    ∧ (runCalls [100, 101, 101, 101] {} (some 3) (some 10)).1 = [true, true, true, true] :=
  ⟨rfl, rfl, rfl, rfl⟩

/-- Claim C2: inside `is_allowed`, the prune `zremrangebyscore(key, 0,
window_start)` removes exactly the markers with score `≤ windowStart`
(recorded markers have nonnegative scores), so a marker lying exactly at
the boundary `windowStart = now - windowSeconds` is removed, and the
admission decision compares `maxRequests` against the count of markers
strictly newer than `windowStart` only. -/
theorem C2_prune_boundary (s : ZSet) (now : Int) (mr ws : Option Int) (wstart : Int)
    (hpos : ∀ e ∈ s.entries, 0 ≤ e.2)
    (hw : wstart = now - pyOrInt ws settings.RATE_LIMIT_WINDOW) :
    (zremrangebyscore s 0 wstart).entries
        = s.entries.filter (fun e => decide (wstart < e.2))
    ∧ (∀ e ∈ s.entries, e.2 = wstart → e ∉ (zremrangebyscore s 0 wstart).entries)
    ∧ ((is_allowed noErr s now mr ws).1 = true ↔
        ((s.entries.filter (fun e => decide (wstart < e.2))).length : Int)
          < pyOrInt mr settings.RATE_LIMIT_REQUESTS) := by
  have hfilter : (zremrangebyscore s 0 wstart).entries
      = s.entries.filter (fun e => decide (wstart < e.2)) := by
    show s.entries.filter _ = s.entries.filter _
    apply List.filter_congr
    intro e he
    have h0 : (0:Int) ≤ e.2 := hpos e he
    rw [decide_eq_true h0, Bool.true_and, ← decide_not]
    exact decide_eq_decide.mpr (by omega)
  refine ⟨hfilter, ?_, ?_⟩
  · intro e he hb
    rw [hfilter, List.mem_filter]
    rintro ⟨-, hlt⟩
    rw [decide_eq_true_eq] at hlt
    omega
  · subst hw
    simp only [is_allowed, noErr, Bool.false_eq_true, if_false]
    split_ifs with hc
    · constructor
      · intro hfalse
        exact absurd hfalse (by simp)
      · intro hlt
        rw [zcard, hfilter] at hc
        omega
    · constructor
      · intro _
        rw [zcard, hfilter] at hc
        omega
      · intro _
        rfl

/-- Witness for C2 at a concrete window: markers at scores 95 and 100,
`now = 105`, `windowSeconds = 10` (so `windowStart = 95`): the marker at
the boundary score 95 is excluded and the decision counts only the marker
at score 100. -/
theorem C2_prune_boundary_witness :
    (∀ e ∈ (⟨[("95", 95), ("100", 100)], none⟩ : ZSet).entries, (0:Int) ≤ e.2)
    ∧ ((is_allowed noErr ⟨[("95", 95), ("100", 100)], none⟩ 105 (some 3) (some 10)).1 = true ↔
        (((⟨[("95", 95), ("100", 100)], none⟩ : ZSet).entries.filter
            (fun e => decide ((95:Int) < e.2))).length : Int)
          < pyOrInt (some 3) settings.RATE_LIMIT_REQUESTS) :=
  ⟨by decide,
    (C2_prune_boundary ⟨[("95", 95), ("100", 100)], none⟩ 105 (some 3) (some 10) 95
      (by decide) (by decide)).2.2⟩

/-- Claim C6: when the post-prune count is at least `maxRequests`,
`is_allowed` returns `False` and the resulting state is exactly the pruned
set: no marker is inserted and the key TTL is left untouched. -/
theorem C6_reject_leaves_state_pruned_only (s : ZSet) (now : Int) (mr ws : Option Int)
    (h : pyOrInt mr settings.RATE_LIMIT_REQUESTS
        ≤ (zcard (zremrangebyscore s 0 (now - pyOrInt ws settings.RATE_LIMIT_WINDOW)) : Int)) :
    is_allowed noErr s now mr ws
      = (false, zremrangebyscore s 0 (now - pyOrInt ws settings.RATE_LIMIT_WINDOW), false)
    ∧ (is_allowed noErr s now mr ws).2.1.ttl = s.ttl := by
  have hmain : is_allowed noErr s now mr ws
      = (false, zremrangebyscore s 0 (now - pyOrInt ws settings.RATE_LIMIT_WINDOW), false) := by
    simp only [is_allowed, noErr, Bool.false_eq_true, if_false]
    rw [if_pos h]
  exact ⟨hmain, by rw [hmain]; rfl⟩

/-- Witness for C6: three markers in window, quota 3, fourth-second call
rejected with state exactly the pruned set. -/
theorem C6_reject_leaves_state_pruned_only_witness :
    (pyOrInt (some 3) settings.RATE_LIMIT_REQUESTS
        ≤ (zcard (zremrangebyscore ⟨[("100", 100), ("101", 101), ("102", 102)], some 10⟩
            0 (105 - pyOrInt (some 10) settings.RATE_LIMIT_WINDOW)) : Int))
    ∧ is_allowed noErr ⟨[("100", 100), ("101", 101), ("102", 102)], some 10⟩ 105
          (some 3) (some 10)
        = (false, zremrangebyscore ⟨[("100", 100), ("101", 101), ("102", 102)], some 10⟩
            0 (105 - pyOrInt (some 10) settings.RATE_LIMIT_WINDOW), false) :=
  ⟨by decide,
    (C6_reject_leaves_state_pruned_only ⟨[("100", 100), ("101", 101), ("102", 102)], some 10⟩
      105 (some 3) (some 10) (by decide)).1⟩

/-- Claim C7: `get_remaining_requests` performs the same prune
`zremrangebyscore(key, 0, now - RATE_LIMIT_WINDOW)` that `is_allowed`
performs, returns `max(0, RATE_LIMIT_REQUESTS - count)` of the remaining
markers, and otherwise does not mutate the identifier's state: the
resulting entries are a sublist of the original (no insertion) and the TTL
is untouched. -/
theorem C7_remaining_requests_prune_only (s : ZSet) (now : Int) :
    get_remaining_requests noErr s now
      = (max 0 (settings.RATE_LIMIT_REQUESTS
            - (zcard (zremrangebyscore s 0 (now - settings.RATE_LIMIT_WINDOW)) : Int)),
         zremrangebyscore s 0 (now - settings.RATE_LIMIT_WINDOW), false)
    ∧ (get_remaining_requests noErr s now).2.1.ttl = s.ttl
    ∧ (get_remaining_requests noErr s now).2.1.entries.Sublist s.entries := by
  have hmain : get_remaining_requests noErr s now
      = (max 0 (settings.RATE_LIMIT_REQUESTS
            - (zcard (zremrangebyscore s 0 (now - settings.RATE_LIMIT_WINDOW)) : Int)),
         zremrangebyscore s 0 (now - settings.RATE_LIMIT_WINDOW), false) := by
    simp only [get_remaining_requests, noErr, Bool.false_eq_true, if_false]
  refine ⟨hmain, by rw [hmain]; rfl, ?_⟩
  rw [hmain]
  exact List.filter_sublist s.entries

/-- Claim C9: every `is_allowed` call (under any error schedule) preserves
the well-formedness of the window set, and afterwards the set holds at
most one marker per integer second; moreover on the error-free path, if a
marker for the current second already survives the prune, an admission
overwrites it rather than adding a member, leaving the member count
unchanged. -/
theorem C9_at_most_one_marker_per_second (err : Nat → Bool) (s : ZSet) (now : Int)
    (mr ws : Option Int) (h : WF s) :
    WF (is_allowed err s now mr ws).2.1
    ∧ (∀ t : Int,
        ((is_allowed err s now mr ws).2.1.entries.filter
          (fun e => decide (e.2 = t))).length ≤ 1)
    ∧ (toString now ∈ (zremrangebyscore s 0
          (now - pyOrInt ws settings.RATE_LIMIT_WINDOW)).entries.map Prod.fst →
        (is_allowed noErr s now mr ws).2.1.entries.length
          = (zremrangebyscore s 0
              (now - pyOrInt ws settings.RATE_LIMIT_WINDOW)).entries.length) := by
  have hwf := WF_is_allowed err s now mr ws h
  refine ⟨hwf, fun t => one_per_score _ hwf.1 hwf.2 t, ?_⟩
  intro hmem
  simp only [is_allowed, noErr, Bool.false_eq_true, if_false]
  split_ifs with hc
  · rfl
  · exact zaddEntries_length_of_mem _ _ _ hmem

/-- Witness for C9: a well-formed window with one marker at second 100;
a second call at second 100 overwrites it, and the result keeps at most
one marker per second. -/
theorem C9_at_most_one_marker_per_second_witness :
    WF ⟨[("100", 100)], some 10⟩
    ∧ WF (is_allowed noErr ⟨[("100", 100)], some 10⟩ 100 (some 3) (some 10)).2.1 :=
  ⟨by constructor <;> decide,
    (C9_at_most_one_marker_per_second noErr ⟨[("100", 100)], some 10⟩ 100 (some 3) (some 10)
      ⟨by decide, by decide⟩).1⟩

/-- Claim C10: if any Redis call inside `get_remaining_requests` raises,
the `except` branch returns the full configured quota
`settings.RATE_LIMIT_REQUESTS` instead of propagating the error. -/
theorem C10_remaining_requests_fail_open (err : Nat → Bool) (s : ZSet) (now : Int)
    (h : (get_remaining_requests err s now).2.2 = true) :
    (get_remaining_requests err s now).1 = settings.RATE_LIMIT_REQUESTS := by
  simp only [get_remaining_requests] at h ⊢
  by_cases h0 : err 0 = true
  · simp [h0]
  · by_cases h1 : err 1 = true
    · simp [h0, h1]
    · simp [h0, h1] at h

/-- Witness for C10: with every store call raising, the query reports the
untouched quota of 100. -/
theorem C10_remaining_requests_fail_open_witness :
    ((get_remaining_requests (fun _ => true) ⟨[("100", 100)], some 10⟩ 100).2.2 = true)
    ∧ (get_remaining_requests (fun _ => true) ⟨[("100", 100)], some 10⟩ 100).1
        = settings.RATE_LIMIT_REQUESTS :=
  ⟨rfl, C10_remaining_requests_fail_open (fun _ => true) ⟨[("100", 100)], some 10⟩ 100 rfl⟩

/-- Claim C8 counterexample: the claim says distinct
`(tenant, logDigest, docDigest)` triples never map to the same cache key
except through a collision of the digest algorithm. But the key joins the
three components with `:` before hashing, so the distinct triples
`("a:b", "c", "d")` and `("a", "b:c", "d")` produce the identical combined
string `"a:b:c:d"` and hence the identical key, with no digest collision
involved (the digest inputs are equal). -/
theorem C8_distinct_triples_same_key_without_digest_collision :
    (("a:b", "c", "d") : String × String × String) ≠ ("a", "b:c", "d")
    ∧ generate_cache_key "a:b" "c" "d" = generate_cache_key "a" "b:c" "d"
    ∧ combinedKeyInput "a:b" "c" "d" = combinedKeyInput "a" "b:c" "d" :=
  ⟨by decide, rfl, rfl⟩

/-- Claim C8 (amended): whenever two triples map to the same cache key,
the MD5 digests of their colon-joined combined strings are equal — so for
triples whose combined strings differ, a shared key requires a genuine MD5
collision; triples whose components contain `:` may share a key merely by
colon-joining to the same combined string. -/
theorem C8_key_collision_implies_digest_collision (a1 l1 d1 a2 l2 d2 : String)
    (h : generate_cache_key a1 l1 d1 = generate_cache_key a2 l2 d2) :
    md5_hex (combinedKeyInput a1 l1 d1) = md5_hex (combinedKeyInput a2 l2 d2) := by
  have hd := congrArg String.data h
  unfold generate_cache_key at hd
  rw [String.data_append, String.data_append] at hd
  exact String.ext (List.append_cancel_left hd)

/-- Witness for the amended C8 at concrete equal-key inputs. -/
theorem C8_key_collision_implies_digest_collision_witness :
    generate_cache_key "a:b" "c" "d" = generate_cache_key "a" "b:c" "d"
    ∧ md5_hex (combinedKeyInput "a:b" "c" "d") = md5_hex (combinedKeyInput "a" "b:c" "d") :=
  ⟨rfl, C8_key_collision_implies_digest_collision "a:b" "c" "d" "a" "b:c" "d" rfl⟩

/-- Claim C5: contents that are semantically equal up to reordering of
dictionary keys (same key-value pairs at every nesting level, any
insertion order) serialize to the same canonical JSON under
`sort_keys=True` and therefore get the same content hash from
`generate_content_hash`. -/
theorem C5_hash_invariant_under_key_reordering (c1 c2 : Content)
    (h : equivContent c1 c2) :
    generate_content_hash c1 = generate_content_hash c2 :=
  congrArg md5_hex
    (dumps_eq_of_equiv_bounded (sizeOf c1 + sizeOf c2) c1 c2 le_rfl h)

/-- Witness for C5 on a nested example: the dicts
`{"b": 2, "a": [{"y": "v", "x": null}]}` and
`{"a": [{"x": null, "y": "v"}], "b": 2}` differ in insertion order at both
nesting levels and hash identically. -/
theorem C5_hash_invariant_under_key_reordering_witness :
    equivContent
        (.obj [("b", .num 2), ("a", .arr [.obj [("y", .str "v"), ("x", .null)]])])
        (.obj [("a", .arr [.obj [("x", .null), ("y", .str "v")]]), ("b", .num 2)])
    ∧ generate_content_hash
        (.obj [("b", .num 2), ("a", .arr [.obj [("y", .str "v"), ("x", .null)]])])
      = generate_content_hash
        (.obj [("a", .arr [.obj [("x", .null), ("y", .str "v")]]), ("b", .num 2)]) :=
  ⟨by simp [equivContent],
    C5_hash_invariant_under_key_reordering _ _ (by simp [equivContent])⟩

/-- Claim C3: a store error during any of the three operations is caught
at the operation boundary and converted to the safe default — `is_allowed`
returns `True` (fail open), `get_analysis_cache` returns `None` (a miss,
not an exception), and `set_analysis_cache` returns normally leaving the
keyspace unchanged; no store exception propagates out of any of them (the
model encodes the `except` branches as total function results). -/
theorem C3_store_errors_fail_open :
    (∀ (err : Nat → Bool) (s : ZSet) (now : Int) (mr ws : Option Int),
      (is_allowed err s now mr ws).2.2 = true → (is_allowed err s now mr ws).1 = true)
    ∧ (∀ (err : Nat → Bool) (kv : KV) (t l d : String),
      (get_analysis_cache err kv t l d).2 = true →
        (get_analysis_cache err kv t l d).1 = none)
    ∧ (∀ (err : Nat → Bool) (kv : KV) (t l d : String) (a : AIAnalysis),
      (set_analysis_cache err kv t l d a).2 = true →
        (set_analysis_cache err kv t l d a).1 = kv) := by
  refine ⟨?_, ?_, ?_⟩
  · intro err s now mr ws h
    simp only [is_allowed] at h ⊢
    split_ifs at h ⊢ <;> simp_all
  · intro err kv t l d h
    unfold get_analysis_cache at h ⊢
    by_cases h0 : err 0 = true
    · rw [if_pos h0]
    · rw [if_neg h0] at h
      rcases hkv : kvGet kv (generate_cache_key t l d) with _ | v <;>
        rw [hkv] at h <;> simp at h
  · intro err kv t l d a h
    unfold set_analysis_cache at h ⊢
    by_cases h0 : err 0 = true
    · rw [if_pos h0]
    · rw [if_neg h0] at h
      simp at h

/-- Witness for C3: with every store call raising, the admission check
returns `True`, the lookup reports a miss, and the store leaves the
keyspace untouched. -/
theorem C3_store_errors_fail_open_witness :
    ((is_allowed (fun _ => true) {} 100 (some 3) (some 10)).2.2 = true
      ∧ (is_allowed (fun _ => true) {} 100 (some 3) (some 10)).1 = true)
    ∧ ((get_analysis_cache (fun _ => true) {} "acme" "L1" "D1").2 = true
      ∧ (get_analysis_cache (fun _ => true) {} "acme" "L1" "D1").1 = none)
    ∧ ((set_analysis_cache (fun _ => true) {} "acme" "L1" "D1" sampleAnalysis).2 = true
      ∧ (set_analysis_cache (fun _ => true) {} "acme" "L1" "D1" sampleAnalysis).1 = {}) :=
  ⟨⟨rfl, C3_store_errors_fail_open.1 (fun _ => true) {} 100 (some 3) (some 10) rfl⟩,
   ⟨rfl, C3_store_errors_fail_open.2.1 (fun _ => true) {} "acme" "L1" "D1" rfl⟩,
   ⟨rfl, C3_store_errors_fail_open.2.2 (fun _ => true) {} "acme" "L1" "D1" sampleAnalysis rfl⟩⟩

/-- Claim C4: the round-trip law. For any pydantic-admissible analysis,
storing it (once, or twice with the same key and the same analysis) and
immediately looking it up with the same (tenant, log digest, doc digest)
returns an analysis equal field-for-field to the one stored: the stored
document carries the timestamps in their normalized text form
(`isoformat()` for `created_at`, `str(...)` for nested resolution dates)
and pydantic parses those texts back to the original datetimes on read. -/
theorem C4_roundtrip (kv : KV) (t l d : String) (a : AIAnalysis) (hv : a.Valid) :
    kvGet (set_analysis_cache noErr kv t l d a).1 (generate_cache_key t l d)
        = some (dumpAnalysis a)
    ∧ (get_analysis_cache noErr (set_analysis_cache noErr kv t l d a).1 t l d).1
        = some a
    ∧ (get_analysis_cache noErr
          (set_analysis_cache noErr (set_analysis_cache noErr kv t l d a).1 t l d a).1
          t l d).1
        = some a := by
  have hset : ∀ kv2 : KV, (set_analysis_cache noErr kv2 t l d a).1
      = kvSetex kv2 (generate_cache_key t l d) (dumpAnalysis a) settings.CACHE_TTL :=
    fun _ => rfl
  refine ⟨?_, ?_, ?_⟩
  · rw [hset]
    exact kvGet_kvSetex_same _ _ _ _
  · show (match kvGet (set_analysis_cache noErr kv t l d a).1 (generate_cache_key t l d) with
      | some v => (parseAnalysis v, false)
      | none => (none, false) : Option AIAnalysis × Bool).1 = some a
    rw [hset, kvGet_kvSetex_same]
    exact parseAnalysis_dump hv
  · show (match kvGet
        (set_analysis_cache noErr (set_analysis_cache noErr kv t l d a).1 t l d a).1
        (generate_cache_key t l d) with
      | some v => (parseAnalysis v, false)
      | none => (none, false) : Option AIAnalysis × Bool).1 = some a
    rw [hset, kvGet_kvSetex_same]
    exact parseAnalysis_dump hv

/-- Witness for C4 at the spec scenario: tenant "acme", log digest "L1",
doc digest "D1", a concrete analysis with both a fractional-second
`created_at` and a whole-second nested resolution date. -/
theorem C4_roundtrip_witness :
    sampleAnalysis.Valid
    ∧ (get_analysis_cache noErr
        (set_analysis_cache noErr {} "acme" "L1" "D1" sampleAnalysis).1 "acme" "L1" "D1").1
      = some sampleAnalysis :=
  ⟨by constructor <;> simp [sampleAnalysis, Datetime.Valid],
   (C4_roundtrip {} "acme" "L1" "D1" sampleAnalysis
      (by constructor <;> simp [sampleAnalysis, Datetime.Valid])).2.1⟩

end Scooby
